import Mathlib

set_option maxHeartbeats 1000000

namespace MjmlBuilder

/-! Shallow embedding of the mjml-builder orchestration scripts
(`scripts/build.js`, `scripts/verify-hash.js`, `scripts/clean.js`).
Configuration objects are modelled as association lists holding the
entries in the order `Object.entries` enumerates them over the parsed
`build-config.json`: per ECMAScript property enumeration, canonical
integer-index keys (the node-version keys "16".."24") come first in
ascending numeric order regardless of declaration order, and all other
keys (the platform names) follow in insertion order.  `jsEntriesIntegerKeys`
below models that reordering for integer-keyed maps.  File contents are
modelled as `List Char`; the filesystem as an association list from path
to content.  The external `pkg` invocation and the `crypto` digest are
opaque to the scripts and are passed in as explicit parameters. -/

/-- Per-platform entry of `config.platforms` in `build-config.json`:
`{enabled, pkgTarget, artifactName, extension}` (extension may be absent). -/
structure PlatformCfg where
  enabled : Bool
  pkgTarget : String
  artifactName : String
  extension : Option String
  deriving DecidableEq, Repr

/-- Per-version entry of `config.nodeVersions`: `{enabled, supported, pkgTarget}`. -/
structure NodeCfg where
  enabled : Bool
  supported : Bool
  pkgTarget : String
  deriving DecidableEq, Repr

/-- The `config.output` policy block: directory, binary name prefix,
hash algorithm identifier, compression level. -/
structure OutputCfg where
  directory : String
  binaryPrefix : String
  hashAlgorithm : String
  compressionLevel : Nat
  deriving DecidableEq, Repr

/-- The `config.build` policy block: clean-before-build, parallel flag,
max concurrency. -/
structure BuildPolicy where
  cleanBeforeBuild : Bool
  parallel : Bool
  maxConcurrency : Nat
  deriving DecidableEq, Repr

/-- The whole parsed `build-config.json`.  The two mappings hold their
entries in the order `Object.entries` enumerates them: insertion
(declaration) order for the platform map, whose keys are not integer
indices, but ascending numeric key order for the node-version map, whose
keys are canonical integer-index strings. -/
structure Config where
  platforms : List (String × PlatformCfg)
  nodeVersions : List (String × NodeCfg)
  output : OutputCfg
  build : BuildPolicy
  deriving DecidableEq, Repr

/-- The CLI options read by `build.js` (`--platform`, `--node`, `--single`,
`--dry-run`); `getArgValue` yields `null` (here `none`) when a flag is
absent or its value is empty. -/
structure Options where
  platform : Option String
  nodeVersion : Option String
  single : Bool
  dryRun : Bool
  deriving DecidableEq, Repr

/-- One entry of the build matrix produced by `generateBuildMatrix`. -/
structure BuildJob where
  platform : String
  platformConfig : PlatformCfg
  nodeVersion : String
  nodeConfig : NodeCfg
  target : String
  outputName : String
  deriving DecidableEq, Repr

/-- `getBinaryName(platformConfig, nodeVersion)` from `build.js`:
`prefix-artifactName-node<version><ext>` where `ext` is the platform
extension or the empty string. -/
def getBinaryName (cfg : Config) (platformConfig : PlatformCfg) (nodeVersion : String) : String :=
  cfg.output.binaryPrefix ++ "-" ++ platformConfig.artifactName ++ "-node" ++ nodeVersion
    ++ platformConfig.extension.getD ""

/-- The filter `!options.platform || name === options.platform` applied by
`generateBuildMatrix` to each entry name. -/
def matchesFilter (filter : Option String) (name : String) : Bool :=
  match filter with
  | none => true
  | some f => name == f

/-- The platform entries retained by `generateBuildMatrix`: `enabled` and
matching the optional `--platform` filter. -/
def enabledPlatforms (cfg : Config) (opts : Options) : List (String × PlatformCfg) :=
  (cfg.platforms.filter (fun p => p.2.enabled)).filter
    (fun p => matchesFilter opts.platform p.1)

/-- The node-version entries retained by `generateBuildMatrix`:
`enabled && supported` and matching the optional `--node` filter. -/
def enabledNodeVersions (cfg : Config) (opts : Options) : List (String × NodeCfg) :=
  (cfg.nodeVersions.filter (fun v => v.2.enabled && v.2.supported)).filter
    (fun v => matchesFilter opts.nodeVersion v.1)

/-- The job built for a platform entry and a node-version entry in the
inner loop of `generateBuildMatrix`. -/
def mkJob (cfg : Config) (p : String × PlatformCfg) (v : String × NodeCfg) : BuildJob :=
  { platform := p.1
    platformConfig := p.2
    nodeVersion := v.1
    nodeConfig := v.2
    target := v.2.pkgTarget ++ "-" ++ p.2.pkgTarget
    outputName := getBinaryName cfg p.2 v.1 }

/-- `generateBuildMatrix()` from `build.js`: the nested loop over enabled
platforms (outer) and enabled+supported node versions (inner). -/
def generateBuildMatrix (cfg : Config) (opts : Options) : List BuildJob :=
  (enabledPlatforms cfg opts).flatMap
    (fun p => (enabledNodeVersions cfg opts).map (fun v => mkJob cfg p v))

theorem length_flatMap_map_const {α β γ : Type} (ps : List α) (vs : List β)
    (g : α → β → γ) :
    (ps.flatMap (fun p => vs.map (fun v => g p v))).length = ps.length * vs.length := by
  induction ps with
  | nil => simp
  | cons p ps ih => simp [List.flatMap_cons, ih, Nat.succ_mul, Nat.add_comm]

/-- C1: the build matrix is exactly the Cartesian product of the filtered
platform entries and the filtered (enabled AND supported) version entries:
its length is the product of the two counts, every job comes from an
eligible pair (in particular its version config has `enabled = true` and
`supported = true`), and every eligible pair yields a job of the matrix. -/
theorem generateBuildMatrix_cartesian (cfg : Config) (opts : Options) :
    (generateBuildMatrix cfg opts).length
        = (enabledPlatforms cfg opts).length * (enabledNodeVersions cfg opts).length
    ∧ (∀ j ∈ generateBuildMatrix cfg opts,
        j.nodeConfig.enabled = true ∧ j.nodeConfig.supported = true
        ∧ ∃ p ∈ enabledPlatforms cfg opts, ∃ v ∈ enabledNodeVersions cfg opts,
            j = mkJob cfg p v)
    ∧ (∀ p ∈ enabledPlatforms cfg opts, ∀ v ∈ enabledNodeVersions cfg opts,
        mkJob cfg p v ∈ generateBuildMatrix cfg opts) := by
  refine ⟨length_flatMap_map_const _ _ _, ?_, ?_⟩
  · intro j hj
    simp only [generateBuildMatrix, List.mem_flatMap, List.mem_map] at hj
    obtain ⟨p, hp, v, hv, hjv⟩ := hj
    have h := hv
    simp only [enabledNodeVersions, List.mem_filter, Bool.and_eq_true] at h
    obtain ⟨⟨hmem, hen, hsup⟩, hfil⟩ := h
    refine ⟨?_, ?_, p, hp, v, hv, hjv.symm⟩
    · subst hjv
      simpa [mkJob] using hen
    · subst hjv
      simpa [mkJob] using hsup
  · intro p hp v hv
    simp only [generateBuildMatrix, List.mem_flatMap, List.mem_map]
    exact ⟨p, hp, v, hv, rfl⟩

/-- C7: the Matrix Planner is a deterministic pure function of the
configuration and the two filters: equal inputs give equal (hence
identically ordered) job lists. -/
theorem generateBuildMatrix_deterministic (cfg₁ cfg₂ : Config) (opts₁ opts₂ : Options)
    (hc : cfg₁ = cfg₂) (hp : opts₁.platform = opts₂.platform)
    (hn : opts₁.nodeVersion = opts₂.nodeVersion) :
    generateBuildMatrix cfg₁ opts₁ = generateBuildMatrix cfg₂ opts₂ := by
  subst hc
  simp only [generateBuildMatrix, enabledPlatforms, enabledNodeVersions, hp, hn]

/-! ### Filesystem model and the Hasher / Build Executor

File contents are lists of characters; the filesystem is an association
list from absolute path to content, where a write shadows earlier entries
for the same path (overwrite). -/

/-- A filesystem snapshot: newest writes first. -/
def FS : Type := List (String × List Char)

/-- `fs.readFileSync` / `fs.existsSync`: the content at a path, if present. -/
def fsGet : FS → String → Option (List Char)
  | [], _ => none
  | (q, c) :: rest, p => if q = p then some c else fsGet rest p

/-- `fs.writeFileSync`: overwrite (shadow) the content at a path. -/
def fsWrite (fs : FS) (p : String) (content : List Char) : FS :=
  (p, content) :: fs

theorem fsGet_write_self (fs : FS) (p : String) (c : List Char) :
    fsGet (fsWrite fs p c) p = some c := by
  simp [fsGet, fsWrite]

theorem fsGet_write_ne (fs : FS) (p q : String) (c : List Char) (h : q ≠ p) :
    fsGet (fsWrite fs q c) p = fsGet fs p := by
  simp [fsGet, fsWrite, h]

theorem ne_append_of_ne_empty (s t : String) (h : t ≠ "") : s ≠ s ++ t := by
  intro h2
  have h3 := congrArg String.length h2
  rw [String.length_append] at h3
  have h5 : t.length = 0 := by omega
  exact h (String.ext (List.length_eq_zero.mp h5))

/-- Outcome of one `execAsync(pkgCommand)` call together with the state the
external `pkg` process leaves at the job's output path: the process either
rejects with a diagnostic message, or completes, leaving `some` content at
the output path (or `none` if the expected binary is missing). -/
inductive ExecOutcome where
  | procError (msg : String)
  | completed (output : Option (List Char))
  deriving DecidableEq, Repr

/-- The per-job result object produced by `buildTarget` in `build.js`.
Absent fields of the untyped JS object are `none`. -/
structure BuildResult where
  success : Bool
  dryRun : Bool := false
  outputPath : Option String := none
  size : Option Nat := none
  hash : Option (List Char) := none
  error : Option String := none
  deriving DecidableEq, Repr

/-- Content of the hash sidecar written by `buildTarget`:
`"<digest>  <artifact-name>\n"`. -/
def sidecarContent (hash : List Char) (name : String) : List Char :=
  hash ++ (' ' :: ' ' :: (name.data ++ ['\n']))

/-- `buildTarget(target, outputDir)` from `build.js`.  `digest` is the
opaque `crypto` digest (`generateHash` applies it to the file's bytes);
`env` gives the outcome of the external `pkg` invocation for the job.
Returns the job's `BuildResult` together with the filesystem after the
job (artifact written by the external process, sidecar written by the
script). -/
def buildTarget (digest : List Char → List Char) (cfg : Config) (opts : Options)
    (env : BuildJob → ExecOutcome) (outputDir : String) (t : BuildJob) (fs : FS) :
    BuildResult × FS :=
  let outputPath := outputDir ++ "/" ++ t.outputName
  if opts.dryRun then
    ({ success := true, dryRun := true }, fs)
  else
    match env t with
    | .procError msg => ({ success := false, error := some msg }, fs)
    | .completed none =>
        ({ success := false, error := some ("Binary not created: " ++ outputPath) }, fs)
    | .completed (some bytes) =>
        let fs1 := fsWrite fs outputPath bytes
        let hash := digest bytes
        let hashFile := outputPath ++ "." ++ cfg.output.hashAlgorithm
        let fs2 := fsWrite fs1 hashFile (sidecarContent hash t.outputName)
        ({ success := true, outputPath := some outputPath, size := some bytes.length,
           hash := some hash }, fs2)

/-! ### The Verifier (`verify-hash.js`) -/

/-- Result object of the verification helpers in `verify-hash.js`; absent
fields of the untyped JS object are `none`. -/
structure VerifyResult where
  success : Bool
  error : Option String := none
  expected : Option (List Char) := none
  actual : Option (List Char) := none
  deriving DecidableEq, Repr

/-- Whitespace test used to model the `/\s+/` split. -/
def isWs (c : Char) : Bool := c.isWhitespace

/-- JavaScript `String.prototype.trim()`: strip leading and trailing
whitespace. -/
def jsTrim (s : List Char) : List Char :=
  ((s.dropWhile isWs).reverse.dropWhile isWs).reverse

/-- `hashContent.trim().split(/\s+/)[0]`: the first whitespace-separated
token of the sidecar content. -/
def firstToken (s : List Char) : List Char :=
  (jsTrim s).takeWhile (fun c => !isWs c)

/-- `verifyFile(filePath)` from `verify-hash.js`: check a file against its
sidecar `<filePath>.<algorithm>`. -/
def verifyFile (digest : List Char → List Char) (alg : String) (fs : FS)
    (filePath : String) : VerifyResult :=
  let hashFilePath := filePath ++ "." ++ alg
  match fsGet fs filePath with
  | none => { success := false, error := some "Binary file not found" }
  | some bytes =>
    match fsGet fs hashFilePath with
    | none => { success := false, error := some "Hash file not found" }
    | some hashContent =>
      let expectedHash := firstToken hashContent
      let actualHash := digest bytes
      { success := expectedHash == actualHash, expected := some expectedHash,
        actual := some actualHash }

theorem list_decomp_rdrop_rtake (p : Char → Bool) (l : List Char) :
    l = l.rdropWhile p ++ l.rtakeWhile p := by
  have h : l.reverse.takeWhile p ++ l.reverse.dropWhile p = l.reverse :=
    @List.takeWhile_append_dropWhile _ p l.reverse
  calc l = l.reverse.reverse := (List.reverse_reverse l).symm
    _ = (l.reverse.takeWhile p ++ l.reverse.dropWhile p).reverse := by rw [h]
    _ = (l.reverse.dropWhile p).reverse ++ (l.reverse.takeWhile p).reverse :=
        List.reverse_append _ _
    _ = l.rdropWhile p ++ l.rtakeWhile p := rfl

theorem takeWhile_append_of_takeWhile_nil {α : Type} (p : α → Bool) (w : List α)
    (hw : w.takeWhile p = []) :
    ∀ T : List α, (T ++ w).takeWhile p = T.takeWhile p := by
  intro T
  induction T with
  | nil => simpa using hw
  | cons c T ih =>
    by_cases hc : p c <;> simp [List.takeWhile_cons, hc, ih]

theorem takeWhile_append_cons {α : Type} (p : α → Bool) (d : List α) (x : α)
    (r : List α) (hd : ∀ c ∈ d, p c = true) (hx : p x = false) :
    (d ++ x :: r).takeWhile p = d := by
  induction d with
  | nil => simp [List.takeWhile_cons, hx]
  | cons c d ih =>
    have hc : p c = true := hd c (List.mem_cons_self c d)
    simp only [List.cons_append, List.takeWhile_cons, hc, if_pos]
    rw [ih (fun a ha => hd a (List.mem_cons_of_mem c ha))]

/-- The first token of a freshly written sidecar is the digest, provided
the digest is nonempty and whitespace-free (as a hex digest is). -/
theorem firstToken_sidecar (d : List Char) (name : String)
    (hne : d ≠ []) (hws : ∀ c ∈ d, isWs c = false) :
    firstToken (sidecarContent d name) = d := by
  obtain ⟨c, d', rfl⟩ := List.exists_cons_of_ne_nil hne
  set s : List Char := sidecarContent (c :: d') name with hs
  have hdrop : s.dropWhile isWs = s := by
    have hc : isWs c = false := hws c (List.mem_cons_self c d')
    simp [hs, sidecarContent, List.dropWhile_cons, hc]
  have htrim : jsTrim s = s.rdropWhile isWs := by
    simp only [jsTrim, hdrop]
    rfl
  have hdecomp : s = s.rdropWhile isWs ++ s.rtakeWhile isWs :=
    list_decomp_rdrop_rtake isWs s
  have hwnil : (s.rtakeWhile isWs).takeWhile (fun x => !isWs x) = [] := by
    cases hcase : s.rtakeWhile isWs with
    | nil => rfl
    | cons a w =>
      have ha : isWs a = true := by
        have : a ∈ s.rtakeWhile isWs := by rw [hcase]; exact List.mem_cons_self a w
        exact List.mem_rtakeWhile_imp this
      simp [List.takeWhile_cons, ha]
  have hsd : s.takeWhile (fun x => !isWs x) = c :: d' := by
    have : s = (c :: d') ++ ' ' :: (' ' :: (name.data ++ ['\n'])) := by
      simp [hs, sidecarContent]
    rw [this]
    refine takeWhile_append_cons _ _ _ _ ?_ ?_
    · intro a ha
      simp [hws a ha]
    · simp [isWs]
  calc firstToken s = (s.rdropWhile isWs).takeWhile (fun x => !isWs x) := by
        rw [firstToken, htrim]
    _ = ((s.rdropWhile isWs) ++ s.rtakeWhile isWs).takeWhile (fun x => !isWs x) :=
        (takeWhile_append_of_takeWhile_nil _ _ hwnil _).symm
    _ = s.takeWhile (fun x => !isWs x) := by rw [← hdecomp]
    _ = c :: d' := hsd

/-- C3: Hasher round trip.  After a successful (non-dry-run) build of a
job, re-verifying the artifact at its output path against the sidecar the
build just wrote yields success, with the expected digest read back from
the sidecar equal to the digest of the artifact's bytes.  The digest is
assumed nonempty and whitespace-free, as a hex digest is. -/
theorem hasher_roundTrip (digest : List Char → List Char) (cfg : Config)
    (opts : Options) (env : BuildJob → ExecOutcome) (outputDir : String)
    (t : BuildJob) (fs : FS) (bytes : List Char)
    (hdry : opts.dryRun = false)
    (henv : env t = .completed (some bytes))
    (hne : digest bytes ≠ [])
    (hws : ∀ c ∈ digest bytes, isWs c = false) :
    (buildTarget digest cfg opts env outputDir t fs).1.success = true
    ∧ (buildTarget digest cfg opts env outputDir t fs).1.hash = some (digest bytes)
    ∧ verifyFile digest cfg.output.hashAlgorithm
        (buildTarget digest cfg opts env outputDir t fs).2
        (outputDir ++ "/" ++ t.outputName)
      = { success := true, expected := some (digest bytes),
          actual := some (digest bytes) } := by
  have hb : buildTarget digest cfg opts env outputDir t fs
      = ({ success := true, outputPath := some (outputDir ++ "/" ++ t.outputName),
           size := some bytes.length, hash := some (digest bytes) },
         fsWrite (fsWrite fs (outputDir ++ "/" ++ t.outputName) bytes)
           ((outputDir ++ "/" ++ t.outputName) ++ "." ++ cfg.output.hashAlgorithm)
           (sidecarContent (digest bytes) t.outputName)) := by
    simp [buildTarget, hdry, henv]
  rw [hb]
  refine ⟨rfl, rfl, ?_⟩
  have hpathne : ((outputDir ++ "/" ++ t.outputName) ++ "." ++ cfg.output.hashAlgorithm)
      ≠ (outputDir ++ "/" ++ t.outputName) := by
    intro h
    refine ne_append_of_ne_empty (outputDir ++ "/" ++ t.outputName)
      ("." ++ cfg.output.hashAlgorithm) ?_ ?_
    · intro habs
      have hd := congrArg String.data habs
      rw [String.data_append] at hd
      simp at hd
    · rw [← String.append_assoc]
      exact h.symm
  rw [verifyFile]
  simp only [fsGet_write_ne _ _ _ _ hpathne, fsGet_write_self, fsGet_write_self]
  rw [firstToken_sidecar (digest bytes) t.outputName hne hws]
  simp

/-- `verifyFileWithHash(filePath, expectedHash)` from `verify-hash.js`. -/
def verifyFileWithHash (digest : List Char → List Char) (fs : FS)
    (filePath : String) (expectedHash : List Char) : VerifyResult :=
  match fsGet fs filePath with
  | none => { success := false, error := some "Binary file not found" }
  | some bytes =>
    let actualHash := digest bytes
    { success := expectedHash == actualHash, expected := some expectedHash,
      actual := some actualHash }

/-- State of the output directory as seen by `readdirSync`: whether it
exists, and its entry names in listing order. -/
structure DirState where
  present : Bool
  entries : List String
  deriving DecidableEq, Repr

/-- JavaScript `String.prototype.endsWith`. -/
def jsEndsWith (s suffix : String) : Bool := suffix.data.isSuffixOf s.data

/-- The filter applied to directory entries by `verifyAll` (and
`packageAll`): keep files that are not hash sidecars, not `.json`, and
not `.zip`. -/
def binaryFilter (alg : String) (f : String) : Bool :=
  !(jsEndsWith f ("." ++ alg)) && !(jsEndsWith f ".json") && !(jsEndsWith f ".zip")

/-- The `for (const file of files)` loop of `verifyAll`, with the mutable
`allPassed` accumulator; returns the per-file reported results in loop
order together with the final `allPassed`. -/
def verifyAllGo (digest : List Char → List Char) (alg : String) (fs : FS)
    (outputDir : String) : List String → Bool → List (String × VerifyResult) × Bool
  | [], allPassed => ([], allPassed)
  | f :: rest, allPassed =>
      let r := verifyFile digest alg fs (outputDir ++ "/" ++ f)
      let k := verifyAllGo digest alg fs outputDir rest (allPassed && r.success)
      ((f, r) :: k.1, k.2)

/-- `verifyAll()` from `verify-hash.js`: bulk verification of the output
directory.  Returns the overall boolean and the per-file reports. -/
def verifyAll (digest : List Char → List Char) (alg : String) (dir : DirState)
    (fs : FS) (outputDir : String) : Bool × List (String × VerifyResult) :=
  if dir.present = false then (false, [])
  else
    let files := dir.entries.filter (binaryFilter alg)
    let go := verifyAllGo digest alg fs outputDir files true
    (go.2, go.1)

/-- One entry of `manifest.builds`. -/
structure ManifestEntry where
  name : String
  platform : String
  nodeVersion : String
  hash : List Char
  size : Nat
  deriving DecidableEq, Repr

/-- The manifest document written by `build.js` and read by
`verify-hash.js --manifest`. -/
structure Manifest where
  version : String
  buildTime : String
  builds : List ManifestEntry
  deriving DecidableEq, Repr

/-- The `for (const build of manifest.builds)` loop of `verifyManifest`. -/
def verifyManifestGo (digest : List Char → List Char) (fs : FS)
    (outputDir : String) : List ManifestEntry → Bool → List (String × VerifyResult) × Bool
  | [], allPassed => ([], allPassed)
  | b :: rest, allPassed =>
      let r := verifyFileWithHash digest fs (outputDir ++ "/" ++ b.name) b.hash
      let k := verifyManifestGo digest fs outputDir rest (allPassed && r.success)
      ((b.name, r) :: k.1, k.2)

/-- `verifyManifest()` from `verify-hash.js`; `manifest` is `none` when
`manifest.json` is absent (then the routine reports failure). -/
def verifyManifest (digest : List Char → List Char) (manifest : Option Manifest)
    (fs : FS) (outputDir : String) : Bool × List (String × VerifyResult) :=
  match manifest with
  | none => (false, [])
  | some m =>
      let go := verifyManifestGo digest fs outputDir m.builds true
      (go.2, go.1)

/-- `process.exit(success ? 0 : 1)` at the end of `verify-hash.js`. -/
def verifyExitCode (success : Bool) : Nat := if success then 0 else 1

theorem verifyAllGo_spec (digest : List Char → List Char) (alg : String) (fs : FS)
    (outputDir : String) (files : List String) (acc : Bool) :
    verifyAllGo digest alg fs outputDir files acc
      = (files.map (fun f => (f, verifyFile digest alg fs (outputDir ++ "/" ++ f))),
         acc && files.all (fun f => (verifyFile digest alg fs (outputDir ++ "/" ++ f)).success)) := by
  induction files generalizing acc with
  | nil => simp [verifyAllGo]
  | cons f rest ih => simp [verifyAllGo, ih, Bool.and_assoc]

theorem verifyManifestGo_spec (digest : List Char → List Char) (fs : FS)
    (outputDir : String) (builds : List ManifestEntry) (acc : Bool) :
    verifyManifestGo digest fs outputDir builds acc
      = (builds.map (fun b =>
            (b.name, verifyFileWithHash digest fs (outputDir ++ "/" ++ b.name) b.hash)),
         acc && builds.all (fun b =>
            (verifyFileWithHash digest fs (outputDir ++ "/" ++ b.name) b.hash).success)) := by
  induction builds generalizing acc with
  | nil => simp [verifyManifestGo]
  | cons b rest ih => simp [verifyManifestGo, ih, Bool.and_assoc]

/-- C4: the Verifier's three failure conditions are reported distinctly
(missing artifact, missing sidecar, digest mismatch), every checked
artifact gets an individual report even after a failure (the report list
covers every checked file, in order, with no early exit), and the overall
boolean is the conjunction of the per-artifact successes, both in bulk
directory mode and in manifest mode. -/
theorem verifier_distinct_reasons_no_early_exit (digest : List Char → List Char)
    (alg : String) (fs : FS) (outputDir filePath : String) (dir : DirState)
    (m : Manifest) :
    (fsGet fs filePath = none →
      verifyFile digest alg fs filePath
        = { success := false, error := some "Binary file not found" })
    ∧ (∀ bytes, fsGet fs filePath = some bytes →
        fsGet fs (filePath ++ "." ++ alg) = none →
        verifyFile digest alg fs filePath
          = { success := false, error := some "Hash file not found" })
    ∧ (∀ bytes hashContent, fsGet fs filePath = some bytes →
        fsGet fs (filePath ++ "." ++ alg) = some hashContent →
        verifyFile digest alg fs filePath
          = { success := (firstToken hashContent == digest bytes),
              expected := some (firstToken hashContent),
              actual := some (digest bytes) })
    ∧ (({ success := false, error := some "Binary file not found" } : VerifyResult)
        ≠ { success := false, error := some "Hash file not found" })
    ∧ (∀ exp act : List Char,
        ({ success := false, error := some "Binary file not found" } : VerifyResult)
          ≠ { success := false, expected := some exp, actual := some act }
        ∧ ({ success := false, error := some "Hash file not found" } : VerifyResult)
          ≠ { success := false, expected := some exp, actual := some act })
    ∧ (dir.present = true →
        (verifyAll digest alg dir fs outputDir).2
          = (dir.entries.filter (binaryFilter alg)).map
              (fun f => (f, verifyFile digest alg fs (outputDir ++ "/" ++ f)))
        ∧ (verifyAll digest alg dir fs outputDir).1
          = (dir.entries.filter (binaryFilter alg)).all
              (fun f => (verifyFile digest alg fs (outputDir ++ "/" ++ f)).success))
    ∧ ((verifyManifest digest (some m) fs outputDir).2
        = m.builds.map (fun b =>
            (b.name, verifyFileWithHash digest fs (outputDir ++ "/" ++ b.name) b.hash))
      ∧ (verifyManifest digest (some m) fs outputDir).1
        = m.builds.all (fun b =>
            (verifyFileWithHash digest fs (outputDir ++ "/" ++ b.name) b.hash).success)) := by
  refine ⟨?_, ?_, ?_, ?_, ?_, ?_, ?_⟩
  · intro h; simp [verifyFile, h]
  · intro bytes h1 h2; simp [verifyFile, h1, h2]
  · intro bytes hashContent h1 h2; simp [verifyFile, h1, h2]
  · intro h; simp at h
  · intro exp act
    constructor <;> intro h <;> simp at h
  · intro hpres
    constructor <;> simp [verifyAll, hpres, verifyAllGo_spec]
  · constructor <;> simp [verifyManifest, verifyManifestGo_spec]

/-- C10: in bulk directory mode, a missing output directory yields overall
failure (exit code 1); an existing directory whose entries are all hash
sidecars, `.json` or `.zip` files yields overall success (exit code 0),
vacuously. -/
theorem verifyAll_bulk_exit (digest : List Char → List Char) (alg : String)
    (dir : DirState) (fs : FS) (outputDir : String) :
    (dir.present = false →
      (verifyAll digest alg dir fs outputDir).1 = false
      ∧ verifyExitCode (verifyAll digest alg dir fs outputDir).1 = 1)
    ∧ (dir.present = true →
      (∀ f ∈ dir.entries, binaryFilter alg f = false) →
      (verifyAll digest alg dir fs outputDir).1 = true
      ∧ verifyExitCode (verifyAll digest alg dir fs outputDir).1 = 0) := by
  constructor
  · intro h
    simp [verifyAll, h, verifyExitCode]
  · intro hpres hall
    have hfil : dir.entries.filter (binaryFilter alg) = [] := by
      rw [List.filter_eq_nil_iff]
      intro a ha
      simp [hall a ha]
    constructor <;> simp [verifyAll, hpres, hfil, verifyAllGo, verifyExitCode]

/-! ### Manifest writer (end of `main()` in `build.js`) -/

/-- Projection of a successful `BuildResult` into its manifest entry. -/
def manifestEntryOf (r : BuildJob × BuildResult) : ManifestEntry :=
  { name := r.1.outputName
    platform := r.1.platform
    nodeVersion := r.1.nodeVersion
    hash := r.2.hash.getD []
    size := r.2.size.getD 0 }

/-- The manifest value `main()` builds when at least one job succeeded
(`successful > 0`), else `none` (nothing written). -/
def buildManifest (version buildTime : String)
    (results : List (BuildJob × BuildResult)) : Option Manifest :=
  if 0 < (results.filter (fun r => r.2.success)).length then
    some { version := version
           buildTime := buildTime
           builds := (results.filter (fun r => r.2.success)).map manifestEntryOf }
  else none

/-- The filesystem effect of the manifest block of `main()`: overwrite
`<outputDir>/manifest.json` with the serialized manifest when one is
built.  `encode` is the opaque `JSON.stringify`. -/
def writeManifestFS (encode : Manifest → List Char) (version buildTime : String)
    (results : List (BuildJob × BuildResult)) (outputDir : String) (fs : FS) : FS :=
  match buildManifest version buildTime results with
  | none => fs
  | some m => fsWrite fs (outputDir ++ "/" ++ "manifest.json") (encode m)

/-- C5: the manifest is built (and so the manifest file written) iff at
least one job succeeded; it contains exactly the entries projected from
the successful results (an entry is in it iff some successful result
projects to it, and no failed result contributes); and the write is a
wholesale overwrite: the resulting content at the manifest path is the
fresh serialization, independent of whatever filesystem state (including
any prior manifest) was there before. -/
theorem manifest_write_spec (encode : Manifest → List Char) (version buildTime : String)
    (results : List (BuildJob × BuildResult)) (outputDir : String) :
    ((buildManifest version buildTime results).isSome = true
      ↔ ∃ r ∈ results, r.2.success = true)
    ∧ (∀ m, buildManifest version buildTime results = some m →
        m.builds = (results.filter (fun r => r.2.success)).map manifestEntryOf
        ∧ ∀ e, e ∈ m.builds ↔ ∃ r ∈ results, r.2.success = true ∧ e = manifestEntryOf r)
    ∧ ((¬ ∃ r ∈ results, r.2.success = true) →
        ∀ fs, writeManifestFS encode version buildTime results outputDir fs = fs)
    ∧ (∀ m, buildManifest version buildTime results = some m →
        ∀ fs, fsGet (writeManifestFS encode version buildTime results outputDir fs)
            (outputDir ++ "/" ++ "manifest.json") = some (encode m)) := by
  have hiff : 0 < (results.filter (fun r => r.2.success)).length
      ↔ ∃ r ∈ results, r.2.success = true := by
    rw [List.length_pos]
    constructor
    · intro h
      obtain ⟨r, hr⟩ := List.exists_mem_of_ne_nil _ h
      exact ⟨r, List.mem_of_mem_filter hr, by simpa using List.of_mem_filter hr⟩
    · rintro ⟨r, hr, hs⟩
      intro hnil
      have : r ∈ results.filter (fun r => r.2.success) :=
        List.mem_filter.mpr ⟨hr, by simpa using hs⟩
      simp [hnil] at this
  refine ⟨?_, ?_, ?_, ?_⟩
  · rw [← hiff]
    constructor
    · intro h
      by_contra hneg
      simp [buildManifest, hneg] at h
    · intro h
      simp [buildManifest, h]
  · intro m hm
    rw [buildManifest] at hm
    by_cases hpos : 0 < (results.filter (fun r => r.2.success)).length
    · rw [if_pos hpos] at hm
      obtain rfl : _ = m := Option.some.inj hm
      refine ⟨rfl, ?_⟩
      intro e
      simp only [List.mem_map, List.mem_filter]
      constructor
      · rintro ⟨r, ⟨hr, hs⟩, rfl⟩
        exact ⟨r, hr, by simpa using hs, rfl⟩
      · rintro ⟨r, hr, hs, rfl⟩
        exact ⟨r, ⟨hr, by simpa using hs⟩, rfl⟩
    · rw [if_neg hpos] at hm
      exact absurd hm (by simp)
  · intro hno fs
    have : ¬ 0 < (results.filter (fun r => r.2.success)).length := fun h => hno (hiff.mp h)
    simp [writeManifestFS, buildManifest, this]
  · intro m hm fs
    simp [writeManifestFS, hm, fsGet_write_self]

/-! ### Output directory preparation (`ensureOutputDir` and the clean
step of `main()` in `build.js`) -/

/-- `ensureOutputDir()`: create the output directory if missing. -/
def ensureOutputDir (dir : DirState) : DirState :=
  if dir.present then dir else { present := true, entries := [] }

/-- The clean block of `main()`: if `config.build.cleanBeforeBuild` and not
`--single`, unlink every entry of the output directory. -/
def cleanOutputDir (cfg : Config) (opts : Options) (dir : DirState) : DirState :=
  if cfg.build.cleanBeforeBuild && !opts.single then { dir with entries := [] } else dir

/-- The run-level filesystem preparation `main()` performs before any job:
`ensureOutputDir()` then the conditional clean.  Note that `main()` does
not consult `options.dryRun` here. -/
def mainPrepare (cfg : Config) (opts : Options) (dir : DirState) : DirState :=
  cleanOutputDir cfg opts (ensureOutputDir dir)

/-! ### Concrete configuration used by the scenario claims and witnesses -/

/-- The `linux-x64` platform entry of `build-config.json`. -/
def linuxPlatform : PlatformCfg :=
  { enabled := true, pkgTarget := "linux-x64", artifactName := "linux-x64",
    extension := none }

/-- The Node 20 entry of `config.nodeVersions`. -/
def node20Cfg : NodeCfg := { enabled := true, supported := true, pkgTarget := "node20" }

/-- The Node 16 entry of `config.nodeVersions`. -/
def node16Cfg : NodeCfg := { enabled := true, supported := true, pkgTarget := "node16" }

/-- Numeric value of a canonical integer-index property key such as the
node-version keys `"16"`, `"20"`. -/
def keyNum (s : String) : Nat :=
  s.data.foldl (fun n c => n * 10 + (c.toNat - '0'.toNat)) 0

/-- ECMAScript `OrdinaryOwnPropertyKeys` as observed through
`Object.entries` on an object whose own keys are canonical integer-index
strings (the `config.nodeVersions` map): the entries are enumerated in
ascending numeric key order, regardless of the order they were declared
in the JSON document. -/
def jsEntriesIntegerKeys {α : Type} (entries : List (String × α)) : List (String × α) :=
  List.insertionSort (fun a b => keyNum a.1 ≤ keyNum b.1) entries

/-- The scenario's node-version entries in the JSON declaration order of
the claim: `"20"` declared before `"16"`. -/
def declaredNodeVersions : List (String × NodeCfg) :=
  [("20", node20Cfg), ("16", node16Cfg)]

/-- An output policy block with the repository's defaults. -/
def sampleOutput : OutputCfg :=
  { directory := "dist", binaryPrefix := "mjml", hashAlgorithm := "sha256",
    compressionLevel := 9 }

/-- A build policy block with parallel builds, concurrency 2, and
clean-before-build on. -/
def sampleBuildPolicy : BuildPolicy :=
  { cleanBeforeBuild := true, parallel := true, maxConcurrency := 2 }

/-- The scenario configuration: only `linux-x64` enabled, versions `20`
and `16` declared in that order, both enabled and supported.  The
node-version map is held in the order `Object.entries` actually yields
for these integer-index keys — ascending numeric order, `"16"` before
`"20"` — not in the declaration order. -/
def sampleConfig : Config :=
  { platforms := [("linux-x64", linuxPlatform)]
    nodeVersions := jsEntriesIntegerKeys declaredNodeVersions
    output := sampleOutput
    build := sampleBuildPolicy }

/-- CLI options with no filters, not single, not dry-run. -/
def noFilterOptions : Options :=
  { platform := none, nodeVersion := none, single := false, dryRun := false }

/-- CLI options with no filters and `--dry-run` set. -/
def dryRunOptions : Options :=
  { platform := none, nodeVersion := none, single := false, dryRun := true }

/-- C9 counterexample: on the scenario configuration (versions declared
`"20"` before `"16"`), `Object.entries` enumerates the integer-index
version keys in ascending numeric order, so the iteration order differs
from the declaration order and the planner's job list is not
`linux-x64/20` followed by `linux-x64/16`: the claimed declared-order
output is refuted at this concrete input. -/
theorem generateBuildMatrix_scenario_counterexample :
    jsEntriesIntegerKeys declaredNodeVersions ≠ declaredNodeVersions
    ∧ (generateBuildMatrix sampleConfig noFilterOptions).map
        (fun j => (j.platform, j.nodeVersion))
      ≠ [("linux-x64", "20"), ("linux-x64", "16")]
    ∧ (generateBuildMatrix sampleConfig noFilterOptions).map BuildJob.outputName
      ≠ ["mjml-linux-x64-node20", "mjml-linux-x64-node16"] := by
  refine ⟨?_, ?_, ?_⟩ <;> decide

/-- C9 amended: on the scenario configuration the planner yields exactly
two jobs, `linux-x64`/`16` then `linux-x64`/`20` — in the ascending
numeric version-key order `Object.entries` yields, not in the JSON
declaration order — with output names `mjml-linux-x64-node16` and
`mjml-linux-x64-node20`, each the deterministic composition
`prefix-artifactName-node<version><extension>`. -/
theorem generateBuildMatrix_scenario_numericOrder :
    (generateBuildMatrix sampleConfig noFilterOptions).length = 2
    ∧ (generateBuildMatrix sampleConfig noFilterOptions).map
        (fun j => (j.platform, j.nodeVersion))
      = [("linux-x64", "16"), ("linux-x64", "20")]
    ∧ (generateBuildMatrix sampleConfig noFilterOptions).map BuildJob.outputName
      = ["mjml-linux-x64-node16", "mjml-linux-x64-node20"]
    ∧ getBinaryName sampleConfig linuxPlatform "16" = "mjml-linux-x64-node16"
    ∧ getBinaryName sampleConfig linuxPlatform "20" = "mjml-linux-x64-node20" := by
  refine ⟨rfl, rfl, rfl, rfl, rfl⟩

/-- Witness for C1 at the scenario configuration: the matrix length is the
product of the filtered counts, and the first job's version config is
enabled and supported. -/
theorem generateBuildMatrix_cartesian_witness :
    (generateBuildMatrix sampleConfig noFilterOptions).length
        = (enabledPlatforms sampleConfig noFilterOptions).length
          * (enabledNodeVersions sampleConfig noFilterOptions).length
    ∧ (mkJob sampleConfig ("linux-x64", linuxPlatform) ("20", node20Cfg)).nodeConfig.enabled
        = true
    ∧ (mkJob sampleConfig ("linux-x64", linuxPlatform) ("20", node20Cfg)).nodeConfig.supported
        = true :=
  ⟨(generateBuildMatrix_cartesian sampleConfig noFilterOptions).1,
   ((generateBuildMatrix_cartesian sampleConfig noFilterOptions).2.1
      (mkJob sampleConfig ("linux-x64", linuxPlatform) ("20", node20Cfg)) (by decide)).1,
   ((generateBuildMatrix_cartesian sampleConfig noFilterOptions).2.1
      (mkJob sampleConfig ("linux-x64", linuxPlatform) ("20", node20Cfg)) (by decide)).2.1⟩

/-- Witness for C7: two calls of the planner at the same scenario inputs
give the same job list. -/
theorem generateBuildMatrix_deterministic_witness :
    generateBuildMatrix sampleConfig noFilterOptions
      = generateBuildMatrix sampleConfig noFilterOptions :=
  generateBuildMatrix_deterministic sampleConfig sampleConfig noFilterOptions
    noFilterOptions rfl rfl rfl

/-- C8 counterexample: the claim that a dry run touches no filesystem
state fails on `main()`: with `--dry-run` set, `ensureOutputDir()` still
creates a missing output directory, and the clean-before-build step still
empties an existing one. -/
theorem dryRun_prepare_counterexample :
    dryRunOptions.dryRun = true
    ∧ mainPrepare sampleConfig dryRunOptions { present := false, entries := [] }
        ≠ { present := false, entries := [] }
    ∧ mainPrepare sampleConfig dryRunOptions { present := true, entries := ["stale-binary"] }
        ≠ { present := true, entries := ["stale-binary"] } := by
  refine ⟨rfl, ?_, ?_⟩ <;> decide

/-- C8 amended: with dry-run enabled, `buildTarget` reports synthetic
success for the job without invoking the external build process (its
result and filesystem are independent of the external environment) and
without touching the filesystem; the run-level preparation in `main()`
(directory creation and clean-before-build), however, does not consult
the dry-run flag and still runs. -/
theorem buildTarget_dryRun (digest : List Char → List Char) (cfg : Config)
    (opts : Options) (env : BuildJob → ExecOutcome) (outputDir : String)
    (t : BuildJob) (fs : FS) (h : opts.dryRun = true) :
    buildTarget digest cfg opts env outputDir t fs
      = ({ success := true, dryRun := true }, fs)
    ∧ (∀ env₂, buildTarget digest cfg opts env₂ outputDir t fs
        = buildTarget digest cfg opts env outputDir t fs)
    ∧ (∀ dir : DirState,
        mainPrepare cfg opts dir = mainPrepare cfg { opts with dryRun := false } dir) := by
  refine ⟨?_, ?_, ?_⟩
  · simp [buildTarget, h]
  · intro env₂
    simp [buildTarget, h]
  · intro dir
    simp [mainPrepare, cleanOutputDir, ensureOutputDir]

/-- Witness for C8 (amended): concrete dry-run job on the scenario
configuration. -/
theorem buildTarget_dryRun_witness :
    buildTarget (fun b => b) sampleConfig dryRunOptions (fun _ => ExecOutcome.completed none)
        "dist" (mkJob sampleConfig ("linux-x64", linuxPlatform) ("20", node20Cfg)) []
      = ({ success := true, dryRun := true }, []) :=
  (buildTarget_dryRun (fun b => b) sampleConfig dryRunOptions
    (fun _ => ExecOutcome.completed none) "dist"
    (mkJob sampleConfig ("linux-x64", linuxPlatform) ("20", node20Cfg)) [] rfl).1

/-! ### Build phase semantics (`buildWithConcurrency` and the sequential
loop of `main()` in `build.js`)

`buildWithConcurrency` spawns `Math.min(maxConcurrency, matrix.length)`
workers over a shared queue (`queue.shift()` is the contended pop) and a
shared results array.  We model it as a small-step interleaving system:
a state holds the remaining queue, one optional in-flight job per worker,
and the results appended so far.  A worker step either pops the queue
head into an idle worker slot or completes an in-flight job, appending
its `BuildResult`. -/

/-- The per-job result as a function of the external environment only:
`buildTarget`'s returned object does not depend on the input filesystem. -/
def jobResult (digest : List Char → List Char) (cfg : Config) (opts : Options)
    (env : BuildJob → ExecOutcome) (outputDir : String) (t : BuildJob) : BuildResult :=
  (buildTarget digest cfg opts env outputDir t []).1

theorem buildTarget_fst_eq_jobResult (digest : List Char → List Char) (cfg : Config)
    (opts : Options) (env : BuildJob → ExecOutcome) (outputDir : String)
    (t : BuildJob) (fs : FS) :
    (buildTarget digest cfg opts env outputDir t fs).1
      = jobResult digest cfg opts env outputDir t := by
  rw [jobResult]
  by_cases h : opts.dryRun = true
  · simp [buildTarget, h]
  · simp only [Bool.not_eq_true] at h
    cases henv : env t with
    | procError msg => simp [buildTarget, h, henv]
    | completed output =>
      cases output with
      | none => simp [buildTarget, h, henv]
      | some bytes => simp [buildTarget, h, henv]

/-- Shared state of `buildWithConcurrency`: the job queue, the in-flight
job of each worker (by worker index), and the results pushed so far. -/
structure ExecState where
  queue : List BuildJob
  workers : List (Option BuildJob)
  results : List (BuildJob × BuildResult)
  deriving DecidableEq, Repr

/-- Jobs currently executing their external invocation. -/
def runningJobs (s : ExecState) : List BuildJob := s.workers.filterMap id

/-- One interleaving step of the worker pool: an idle worker pops the
queue head (`queue.shift()`), or an in-flight job completes and its
result is pushed. -/
inductive WorkerStep (jr : BuildJob → BuildResult) : ExecState → ExecState → Prop where
  | take (i : Nat) (j : BuildJob) (rest : List BuildJob)
      (ws : List (Option BuildJob)) (res : List (BuildJob × BuildResult))
      (hw : ws[i]? = some none) :
      WorkerStep jr ⟨j :: rest, ws, res⟩ ⟨rest, ws.set i (some j), res⟩
  | finish (i : Nat) (j : BuildJob) (q : List BuildJob)
      (ws : List (Option BuildJob)) (res : List (BuildJob × BuildResult))
      (hw : ws[i]? = some (some j)) :
      WorkerStep jr ⟨q, ws, res⟩ ⟨q, ws.set i none, res ++ [(j, jr j)]⟩

/-- Reachability under worker interleavings from an initial state. -/
inductive Reachable (jr : BuildJob → BuildResult) (init : ExecState) : ExecState → Prop where
  | refl : Reachable jr init init
  | step {s t : ExecState} : Reachable jr init s → WorkerStep jr s t → Reachable jr init t

/-- `Array(Math.min(maxConcurrency, matrix.length))`: the worker count. -/
def numWorkers (maxConcurrency n : Nat) : Nat := min maxConcurrency n

/-- Initial state of `buildWithConcurrency`: full queue, all workers idle,
no results. -/
def initState (matrix : List BuildJob) (w : Nat) : ExecState :=
  { queue := matrix, workers := List.replicate w none, results := [] }

/-- The sequential `for (const target of matrix)` loop of `main()`. -/
def runSequential (jr : BuildJob → BuildResult) : List BuildJob → List (BuildJob × BuildResult)
  | [] => []
  | t :: rest => (t, jr t) :: runSequential jr rest

/-- `config.build.parallel && matrix.length > 1`: the branch condition of
`main()` choosing concurrent over sequential execution. -/
def usesParallel (cfg : Config) (matrix : List BuildJob) : Bool :=
  cfg.build.parallel && decide (matrix.length > 1)

/-- The results a run of the build phase of `main()` can produce: either
the parallel branch ran the worker pool to completion (empty queue, all
workers idle), or the sequential branch ran the plan in order. -/
inductive BuildPhase (jr : BuildJob → BuildResult) (cfg : Config)
    (matrix : List BuildJob) : List (BuildJob × BuildResult) → Prop where
  | parallel (s : ExecState) :
      usesParallel cfg matrix = true →
      Reachable jr (initState matrix (numWorkers cfg.build.maxConcurrency matrix.length)) s →
      s.queue = [] → runningJobs s = [] →
      BuildPhase jr cfg matrix s.results
  | sequential :
      usesParallel cfg matrix = false →
      BuildPhase jr cfg matrix (runSequential jr matrix)

/-- `results.filter(r => !r.result.success).length` in the run summary. -/
def failedCount (results : List (BuildJob × BuildResult)) : Nat :=
  (results.filter (fun r => !r.2.success)).length

/-- Multiset of jobs accounted for by a state: queued, in flight, done. -/
def stateJobs (s : ExecState) : Multiset BuildJob :=
  (s.queue : Multiset BuildJob) + (runningJobs s : Multiset BuildJob)
    + ((s.results.map Prod.fst : List BuildJob) : Multiset BuildJob)

theorem filterMap_id_replicate_none (w : Nat) :
    (List.replicate w (none : Option BuildJob)).filterMap id = [] := by
  induction w with
  | zero => rfl
  | succ n ih => simp [List.replicate_succ, ih]

theorem filterMap_id_set_some (ws : List (Option BuildJob)) (j : BuildJob) :
    ∀ i, ws[i]? = some none →
      ((ws.set i (some j)).filterMap id : Multiset BuildJob)
        = j ::ₘ (ws.filterMap id : Multiset BuildJob) := by
  induction ws with
  | nil => intro i h; simp at h
  | cons a t ih =>
    intro i h
    cases i with
    | zero =>
      obtain rfl : a = none := by simpa using h
      simp
    | succ i =>
      have ht : t[i]? = some none := by simpa using h
      cases a with
      | none => simpa using ih i ht
      | some b =>
        have hih := ih i ht
        rw [List.set_cons_succ]
        have hfm : ∀ (l : List (Option BuildJob)) (c : BuildJob),
            (some c :: l).filterMap id = c :: l.filterMap id := fun l c => rfl
        rw [hfm, hfm]
        rw [← Multiset.cons_coe, ← Multiset.cons_coe, hih, Multiset.cons_swap]

theorem filterMap_id_set_none (ws : List (Option BuildJob)) (j : BuildJob) :
    ∀ i, ws[i]? = some (some j) →
      (ws.filterMap id : Multiset BuildJob)
        = j ::ₘ ((ws.set i none).filterMap id : Multiset BuildJob) := by
  induction ws with
  | nil => intro i h; simp at h
  | cons a t ih =>
    intro i h
    cases i with
    | zero =>
      obtain rfl : a = some j := by simpa using h
      simp
    | succ i =>
      have ht : t[i]? = some (some j) := by simpa using h
      cases a with
      | none => simpa using ih i ht
      | some b =>
        have hih := ih i ht
        rw [List.set_cons_succ]
        have hfm : ∀ (l : List (Option BuildJob)) (c : BuildJob),
            (some c :: l).filterMap id = c :: l.filterMap id := fun l c => rfl
        rw [hfm, hfm]
        rw [← Multiset.cons_coe, ← Multiset.cons_coe, hih, Multiset.cons_swap]

/-- The inductive invariant of the worker pool: the queued, in-flight and
completed jobs together are exactly the planned matrix, and every pushed
result is the job's `BuildResult`. -/
def PoolInv (jr : BuildJob → BuildResult) (matrix : List BuildJob) (w : Nat)
    (s : ExecState) : Prop :=
  stateJobs s = (matrix : Multiset BuildJob)
  ∧ (∀ p ∈ s.results, p.2 = jr p.1)
  ∧ s.workers.length = w

theorem poolInv_init (jr : BuildJob → BuildResult) (matrix : List BuildJob) (w : Nat) :
    PoolInv jr matrix w (initState matrix w) := by
  refine ⟨?_, ?_, ?_⟩
  · simp [stateJobs, initState, runningJobs, filterMap_id_replicate_none]
  · intro p hp
    simp [initState] at hp
  · simp [initState]

theorem poolInv_step (jr : BuildJob → BuildResult) (matrix : List BuildJob) (w : Nat)
    (s t : ExecState) (hstep : WorkerStep jr s t) (hinv : PoolInv jr matrix w s) :
    PoolInv jr matrix w t := by
  obtain ⟨hjobs, hres, hlen⟩ := hinv
  cases hstep with
  | take i j rest ws res hw =>
    refine ⟨?_, hres, ?_⟩
    · have hset := filterMap_id_set_some ws j i hw
      rw [stateJobs] at hjobs ⊢
      simp only [runningJobs] at hjobs hset ⊢
      rw [← hjobs]
      simp only [hset]
      have hcons : ((j :: rest : List BuildJob) : Multiset BuildJob)
          = j ::ₘ (rest : Multiset BuildJob) := rfl
      simp only [hcons]
      have h1 : ∀ (a : BuildJob) (u : Multiset BuildJob), a ::ₘ u = {a} + u :=
        fun a u => (Multiset.singleton_add a u).symm
      simp only [h1]
      abel
    · simpa using hlen
  | finish i j q ws res hw =>
    refine ⟨?_, ?_, ?_⟩
    · have hset := filterMap_id_set_none ws j i hw
      rw [stateJobs] at hjobs ⊢
      simp only [runningJobs] at hjobs hset ⊢
      have hmap : ((res ++ [(j, jr j)]).map Prod.fst) = res.map Prod.fst ++ [j] := by
        simp
      rw [hmap]
      have hcoe : ((res.map Prod.fst ++ [j] : List BuildJob) : Multiset BuildJob)
          = ((res.map Prod.fst : List BuildJob) : Multiset BuildJob) + {j} := by
        rw [← Multiset.coe_singleton j, ← Multiset.coe_add]
      rw [hcoe, ← hjobs, hset]
      have h1 : ∀ (a : BuildJob) (u : Multiset BuildJob), a ::ₘ u = {a} + u :=
        fun a u => (Multiset.singleton_add a u).symm
      rw [h1]
      abel
    · intro p hp
      rcases List.mem_append.mp hp with h | h
      · exact hres p h
      · obtain rfl : p = (j, jr j) := by simpa using h
        rfl
    · simpa using hlen

theorem poolInv_reachable (jr : BuildJob → BuildResult) (matrix : List BuildJob) (w : Nat)
    (s : ExecState) (h : Reachable jr (initState matrix w) s) :
    PoolInv jr matrix w s := by
  induction h with
  | refl => exact poolInv_init jr matrix w
  | step hr hstep ih => exact poolInv_step jr matrix w _ _ hstep ih

theorem runSequential_eq_map (jr : BuildJob → BuildResult) (matrix : List BuildJob) :
    runSequential jr matrix = matrix.map (fun t => (t, jr t)) := by
  induction matrix with
  | nil => rfl
  | cons t rest ih => simp [runSequential, ih]

/-- C6: the Build Executor's parallel branch spawns exactly
`min(maxConcurrency, N)` workers over the shared queue (the initial state
has that many worker slots, all states keep them), at no reachable point
do more than `maxConcurrency` (nor more than `N`) jobs execute their
external invocation simultaneously, and the sequential branch runs the
jobs in plan order (it produces exactly the plan-ordered result list). -/
theorem buildExecutor_concurrencyBound (jr : BuildJob → BuildResult) (cfg : Config)
    (matrix : List BuildJob) :
    (initState matrix (numWorkers cfg.build.maxConcurrency matrix.length)).workers.length
        = min cfg.build.maxConcurrency matrix.length
    ∧ (∀ s, Reachable jr
          (initState matrix (numWorkers cfg.build.maxConcurrency matrix.length)) s →
        (runningJobs s).length ≤ cfg.build.maxConcurrency
        ∧ (runningJobs s).length ≤ matrix.length)
    ∧ runSequential jr matrix = matrix.map (fun t => (t, jr t))
    ∧ (cfg.build.parallel = false → usesParallel cfg matrix = false) := by
  refine ⟨?_, ?_, runSequential_eq_map jr matrix, ?_⟩
  · simp [initState, numWorkers]
  · intro s hs
    have hlen : s.workers.length = numWorkers cfg.build.maxConcurrency matrix.length :=
      (poolInv_reachable jr matrix _ s hs).2.2
    have hle : (runningJobs s).length ≤ s.workers.length :=
      List.length_filterMap_le id s.workers
    rw [hlen, numWorkers] at hle
    exact ⟨le_trans hle (min_le_left _ _), le_trans hle (min_le_right _ _)⟩
  · intro h
    simp [usesParallel, h]

theorem failedCount_of_perm (jr : BuildJob → BuildResult) (matrix : List BuildJob)
    (results : List (BuildJob × BuildResult))
    (hres : ∀ p ∈ results, p.2 = jr p.1)
    (hperm : (results.map Prod.fst).Perm matrix) :
    failedCount results = (matrix.filter (fun t => !(jr t).success)).length := by
  have h1 : ∀ res : List (BuildJob × BuildResult), (∀ p ∈ res, p.2 = jr p.1) →
      res.countP (fun r => !r.2.success)
        = (res.map Prod.fst).countP (fun t => !(jr t).success) := by
    intro res hres2
    induction res with
    | nil => rfl
    | cons a t ih =>
      have ha : a.2 = jr a.1 := hres2 a (List.mem_cons_self _ _)
      have ht := ih (fun p hp => hres2 p (List.mem_cons_of_mem _ hp))
      simp [List.countP_cons, ht, ha]
  rw [failedCount, ← List.countP_eq_length_filter, h1 results hres,
    hperm.countP_eq, List.countP_eq_length_filter]

theorem buildPhase_results_spec (jr : BuildJob → BuildResult) (cfg : Config)
    (matrix : List BuildJob) (results : List (BuildJob × BuildResult))
    (hrun : BuildPhase jr cfg matrix results)
    (hfail : ∃ t ∈ matrix, (jr t).success = false) :
    (results.map Prod.fst).Perm matrix
    ∧ (∀ p ∈ results, p.2 = jr p.1)
    ∧ failedCount results = (matrix.filter (fun t => !(jr t).success)).length
    ∧ 0 < failedCount results := by
  have hmain : (results.map Prod.fst).Perm matrix ∧ ∀ p ∈ results, p.2 = jr p.1 := by
    cases hrun with
    | parallel s hpar hreach hq hrunning =>
      obtain ⟨hjobs, hres, hlen⟩ := poolInv_reachable jr matrix _ s hreach
      refine ⟨?_, hres⟩
      rw [stateJobs, hq, hrunning] at hjobs
      simp only [Multiset.coe_nil, zero_add] at hjobs
      exact Multiset.coe_eq_coe.mp (by simpa using hjobs)
    | sequential hseq =>
      rw [runSequential_eq_map]
      constructor
      · simp [Function.comp_def]
      · intro p hp
        simp only [List.mem_map] at hp
        obtain ⟨t, ht, rfl⟩ := hp
        rfl
  obtain ⟨hperm, hres⟩ := hmain
  have hcount := failedCount_of_perm jr matrix results hres hperm
  refine ⟨hperm, hres, hcount, ?_⟩
  rw [hcount, ← List.countP_eq_length_filter, List.countP_pos_iff]
  obtain ⟨t, ht, hfl⟩ := hfail
  exact ⟨t, ht, by simp [hfl]⟩

/-- C2: in any run of the build phase of `main()` (parallel pool run to
completion, or sequential) with at least one failing job, every planned
job still gets a result (the result list's jobs are a permutation of the
plan), each result is that job's own `buildTarget` result regardless of
its siblings (failures are local), the run summary's failure count equals
exactly the number of failing jobs (and is positive), and a job whose
external invocation fails or whose output file is missing yields a failed
`BuildResult` carrying the diagnostic message. -/
theorem buildExecutor_isolation (digest : List Char → List Char) (cfg : Config)
    (opts : Options) (env : BuildJob → ExecOutcome) (outputDir : String)
    (matrix : List BuildJob) (results : List (BuildJob × BuildResult))
    (hrun : BuildPhase (jobResult digest cfg opts env outputDir) cfg matrix results)
    (hfail : ∃ t ∈ matrix, (jobResult digest cfg opts env outputDir t).success = false) :
    (results.map Prod.fst).Perm matrix
    ∧ (∀ p ∈ results, p.2 = jobResult digest cfg opts env outputDir p.1)
    ∧ failedCount results
        = (matrix.filter
            (fun t => !(jobResult digest cfg opts env outputDir t).success)).length
    ∧ 0 < failedCount results
    ∧ (∀ t msg, opts.dryRun = false → env t = ExecOutcome.procError msg →
        jobResult digest cfg opts env outputDir t
          = { success := false, error := some msg })
    ∧ (∀ t, opts.dryRun = false → env t = ExecOutcome.completed none →
        jobResult digest cfg opts env outputDir t
          = { success := false,
              error := some ("Binary not created: " ++ (outputDir ++ "/" ++ t.outputName)) }) := by
  obtain ⟨h1, h2, h3, h4⟩ :=
    buildPhase_results_spec (jobResult digest cfg opts env outputDir) cfg matrix
      results hrun hfail
  refine ⟨h1, h2, h3, h4, ?_, ?_⟩
  · intro t msg hdry henv
    simp [jobResult, buildTarget, hdry, henv]
  · intro t hdry henv
    simp [jobResult, buildTarget, hdry, henv]

/-! ### Concrete run used as witness for the executor claims -/

/-- A concrete stand-in digest (prepend a marker character). -/
def wDigest : List Char → List Char := fun b => 'h' :: b

/-- A concrete external environment: the Node 20 job's `pkg` invocation
fails, every other job completes leaving a two-byte binary. -/
def wEnv : BuildJob → ExecOutcome := fun t =>
  if t.nodeVersion == "20" then ExecOutcome.procError "pkg exited 1"
  else ExecOutcome.completed (some ['M', 'Z'])

/-- The scenario's first job (`linux-x64` / Node 20). -/
def wJob1 : BuildJob := mkJob sampleConfig ("linux-x64", linuxPlatform) ("20", node20Cfg)

/-- The scenario's second job (`linux-x64` / Node 16). -/
def wJob2 : BuildJob := mkJob sampleConfig ("linux-x64", linuxPlatform) ("16", node16Cfg)

/-- The two-job plan of the scenario configuration. -/
def wMatrix : List BuildJob := [wJob1, wJob2]

/-- The per-job results under `wEnv` (job 1 fails, job 2 succeeds). -/
def wJr : BuildJob → BuildResult :=
  jobResult wDigest sampleConfig noFilterOptions wEnv "dist"

/-- The final pool state of the concrete run: queue drained, both workers
idle, both results pushed. -/
def wFinal : ExecState :=
  ⟨[], [none, none], [(wJob1, wJr wJob1), (wJob2, wJr wJob2)]⟩

/-- Witness for C2: the concrete two-job parallel run with one failing job
still reports both jobs, and its failure count is exactly the number of
failing jobs (here positive). -/
theorem buildExecutor_isolation_witness :
    (wFinal.results.map Prod.fst).Perm wMatrix
    ∧ (∀ p ∈ wFinal.results, p.2 = wJr p.1)
    ∧ failedCount wFinal.results = (wMatrix.filter (fun t => !(wJr t).success)).length
    ∧ 0 < failedCount wFinal.results :=
  have h := buildExecutor_isolation wDigest sampleConfig noFilterOptions wEnv "dist"
    wMatrix wFinal.results
    (BuildPhase.parallel wFinal (by decide)
      (Reachable.step (Reachable.step (Reachable.step (Reachable.step Reachable.refl
        (WorkerStep.take 0 wJob1 [wJob2] [none, none] [] rfl))
        (WorkerStep.take 1 wJob2 [] [some wJob1, none] [] rfl))
        (WorkerStep.finish 0 wJob1 [] [some wJob1, some wJob2] [] rfl))
        (WorkerStep.finish 1 wJob2 [] [none, some wJob2] [(wJob1, wJr wJob1)] rfl))
      rfl rfl)
    ⟨wJob1, by decide, by decide⟩
  ⟨h.1, h.2.1, h.2.2.1, h.2.2.2.1⟩

/-- Witness for C6: a mid-run reachable state of the concrete run has at
most `maxConcurrency` (and at most `N`) jobs in flight. -/
theorem buildExecutor_concurrencyBound_witness :
    (runningJobs ⟨[wJob2], [some wJob1, none], []⟩).length
        ≤ sampleConfig.build.maxConcurrency
    ∧ (runningJobs ⟨[wJob2], [some wJob1, none], []⟩).length ≤ wMatrix.length :=
  (buildExecutor_concurrencyBound wJr sampleConfig wMatrix).2.1
    ⟨[wJob2], [some wJob1, none], []⟩
    (Reachable.step Reachable.refl (WorkerStep.take 0 wJob1 [wJob2] [none, none] [] rfl))

/-- Witness for C3: the concrete successful job's artifact verifies
against its freshly written sidecar. -/
theorem hasher_roundTrip_witness :
    (buildTarget wDigest sampleConfig noFilterOptions wEnv "dist" wJob2 []).1.success = true
    ∧ (buildTarget wDigest sampleConfig noFilterOptions wEnv "dist" wJob2 []).1.hash
        = some (wDigest ['M', 'Z'])
    ∧ verifyFile wDigest sampleConfig.output.hashAlgorithm
        (buildTarget wDigest sampleConfig noFilterOptions wEnv "dist" wJob2 []).2
        ("dist" ++ "/" ++ wJob2.outputName)
      = { success := true, expected := some (wDigest ['M', 'Z']),
          actual := some (wDigest ['M', 'Z']) } :=
  hasher_roundTrip wDigest sampleConfig noFilterOptions wEnv "dist" wJob2 []
    ['M', 'Z'] rfl (by decide) (by decide) (by decide)

/-- A small manifest value used by the verifier witnesses. -/
def wManifest : Manifest :=
  { version := "1.0.0", buildTime := "2026-10-12T00:00:00.000Z", builds := [] }

/-- Witness for C4: on concrete inputs, a missing artifact is reported
with its distinct reason, the missing-artifact and missing-sidecar
reasons differ, and on a concrete directory the overall boolean is the
conjunction of the per-file results. -/
theorem verifier_distinct_witness :
    verifyFile wDigest "sha256" ([] : FS) "dist/a"
        = { success := false, error := some "Binary file not found" }
    ∧ (({ success := false, error := some "Binary file not found" } : VerifyResult)
        ≠ { success := false, error := some "Hash file not found" })
    ∧ (verifyAll wDigest "sha256" ⟨true, ["a", "b.json"]⟩ ([] : FS) "dist").1
        = (["a", "b.json"].filter (binaryFilter "sha256")).all
            (fun f => (verifyFile wDigest "sha256" ([] : FS) ("dist" ++ "/" ++ f)).success) :=
  ⟨(verifier_distinct_reasons_no_early_exit wDigest "sha256" ([] : FS) "dist" "dist/a"
      ⟨true, ["a", "b.json"]⟩ wManifest).1 rfl,
   (verifier_distinct_reasons_no_early_exit wDigest "sha256" ([] : FS) "dist" "dist/a"
      ⟨true, ["a", "b.json"]⟩ wManifest).2.2.2.1,
   ((verifier_distinct_reasons_no_early_exit wDigest "sha256" ([] : FS) "dist" "dist/a"
      ⟨true, ["a", "b.json"]⟩ wManifest).2.2.2.2.2.1 rfl).2⟩

/-- Witness for C10: concrete missing directory gives exit 1; a directory
holding only a sidecar, a json and a zip gives exit 0. -/
theorem verifyAll_bulk_exit_witness :
    ((verifyAll wDigest "sha256" ⟨false, []⟩ ([] : FS) "dist").1 = false
      ∧ verifyExitCode (verifyAll wDigest "sha256" ⟨false, []⟩ ([] : FS) "dist").1 = 1)
    ∧ ((verifyAll wDigest "sha256"
          ⟨true, ["x.sha256", "manifest.json", "y.zip"]⟩ ([] : FS) "dist").1 = true
      ∧ verifyExitCode (verifyAll wDigest "sha256"
          ⟨true, ["x.sha256", "manifest.json", "y.zip"]⟩ ([] : FS) "dist").1 = 0) :=
  ⟨(verifyAll_bulk_exit wDigest "sha256" ⟨false, []⟩ ([] : FS) "dist").1 rfl,
   (verifyAll_bulk_exit wDigest "sha256" ⟨true, ["x.sha256", "manifest.json", "y.zip"]⟩
      ([] : FS) "dist").2 rfl (by decide)⟩

/-- A concrete stand-in serialization for the manifest. -/
def wEncode : Manifest → List Char := fun m =>
  m.version.data ++ '|' :: (m.builds.flatMap (fun b => b.name.data))

/-- The concrete run's result list: job 1 failed, job 2 succeeded. -/
def wResults : List (BuildJob × BuildResult) :=
  [(wJob1, wJr wJob1), (wJob2, wJr wJob2)]

/-- Witness for C5: on the concrete run the manifest is built (one job
succeeded), and writing it over a filesystem that already holds an old
manifest leaves exactly the fresh serialization at the manifest path. -/
theorem manifest_write_witness :
    (buildManifest "1.0.0" "now" wResults).isSome = true
    ∧ fsGet (writeManifestFS wEncode "1.0.0" "now" wResults "dist"
          [("dist" ++ "/" ++ "manifest.json", ['o', 'l', 'd'])])
        ("dist" ++ "/" ++ "manifest.json")
      = some (wEncode
          { version := "1.0.0", buildTime := "now",
            builds := [manifestEntryOf (wJob2, wJr wJob2)] }) :=
  ⟨(manifest_write_spec wEncode "1.0.0" "now" wResults "dist").1.mpr
      ⟨(wJob2, wJr wJob2), by decide, by decide⟩,
   (manifest_write_spec wEncode "1.0.0" "now" wResults "dist").2.2.2
      { version := "1.0.0", buildTime := "now",
        builds := [manifestEntryOf (wJob2, wJr wJob2)] }
      (by decide) [("dist" ++ "/" ++ "manifest.json", ['o', 'l', 'd'])]⟩

end MjmlBuilder
